import Mathlib

/-!
Verification of the concurrency-coordination core of a chat-bot that mutates a
remote spreadsheet ledger (game-request funding and a bidwar bank).

The queued tasks of `GoogleAPI` (src/src/google/GoogleAPI.ts) are embedded as
pure functions from their inputs (the results of the remote reads they perform)
to the list of observable effects they emit plus their outcome.  The three
concurrency primitives the repository imports but whose sources are not under
src/ (`Future`, `TaskQueue`, `HeldTask`) are modelled from the specification,
each marked as such in its doc comment.
-/

/-- An observable effect emitted by a queued task: a chat message, a remote
spreadsheet read, a remote spreadsheet write (push), or one of the local
spreadsheet mutations that a push persists. -/
inductive Effect where
  | chat (recipient message : String)
  | readSheet (subSheet : Nat)
  | pushSheet (subSheet : Nat)
  | addPointsToEntry (username gameName : String) (points : Int)
  | addEntry (gameName : String)
  | addBitsToUser (userId username : String) (bits : Int)
  | spendBits (userId username gameName : String) (bits : Int)
  deriving DecidableEq, Repr

/-- Sub-sheet id of the game-request sheet (GoogleAPI.gameRequestSubSheet). -/
def gameRequestSubSheet : Nat := 384782784

/-- Sub-sheet id of the bidwar sheet (GoogleAPI.bidwarSubSheet). -/
def bidwarSubSheet : Nat := 877321766

/-- A row of the game-request spreadsheet as `handleGameRequestFund` reads it:
the entry found by `findEntry`, with its contributed points and its
activation goal. -/
structure GameRequestEntry where
  gameName : String
  pointsContributed : Int
  pointsToActivate : Int
  deriving DecidableEq, Repr

/-- Outcome type of a funding attempt (enum FundGameRequestOutcomeType). -/
inductive FundGameRequestOutcomeType where
  | Fulfilled
  | Unfulfilled
  | PendingConfirmation
  deriving DecidableEq, Repr

/-- Outcome of a funding attempt (interface FundGameRequestOutcome).  The
`complete` operation is represented by the list of effects it would emit when
run. -/
structure FundGameRequestOutcome where
  type : FundGameRequestOutcomeType
  overfundAmount : Option Int := none
  complete : Option (List Effect) := none
  deriving DecidableEq, Repr

/-- Effects of the `completeFunding` closure inside `handleGameRequestFund`:
add the points to the entry, push the spreadsheet, confirm in chat. -/
def completeFundingEffects (respondTo gameName username : String)
    (points : Int) : List Effect :=
  [Effect.addPointsToEntry username gameName points,
   Effect.pushSheet gameRequestSubSheet,
   Effect.chat respondTo ("@" ++ username ++ ", your " ++ toString points ++
     " points were successfully added to requesting " ++ gameName ++ " on stream!")]

/-- The task queued by `handleGameRequestFund`, as a function of the result of
its spreadsheet lookup (`existingEntry = findEntry gameName`).  Returns the
outcome the task resolves its future with, and the effects it emits itself
(the `PendingConfirmation` branch defers `completeFundingEffects` into the
outcome's `complete` operation instead of emitting them). -/
def handleGameRequestFundTask (respondTo gameName username : String)
    (points : Int) (existingEntry : Option GameRequestEntry) :
    FundGameRequestOutcome × List Effect :=
  match existingEntry with
  | none =>
      ({ type := FundGameRequestOutcomeType.Unfulfilled },
       [Effect.readSheet gameRequestSubSheet,
        Effect.chat respondTo ("@" ++ username ++
          ", your game request was detected as a new request; please wait until an admin adds this game to the spreadsheet before adding any further points")])
  | some e =>
      if e.pointsContributed ≤ e.pointsToActivate ∧
          e.pointsContributed + points > e.pointsToActivate then
        ({ type := FundGameRequestOutcomeType.PendingConfirmation,
           overfundAmount := some (e.pointsContributed + points - e.pointsToActivate),
           complete := some (completeFundingEffects respondTo gameName username points) },
         [Effect.readSheet gameRequestSubSheet])
      else
        ({ type := FundGameRequestOutcomeType.Fulfilled },
         Effect.readSheet gameRequestSubSheet ::
           completeFundingEffects respondTo gameName username points)

/-- The task queued by `handleGameRequestAdd`, as a function of whether the
spreadsheet read succeeded (`readOk`) and of the lookup result.  Returns the
effects it emits and whether it resolved its future. -/
def handleGameRequestAddTask (respondTo gameName : String)
    (readOk : Bool) (existingEntry : Option GameRequestEntry) :
    List Effect × Bool :=
  if readOk = false then
    ([Effect.readSheet gameRequestSubSheet,
      Effect.chat respondTo "Failed to read game request spreadsheet. No data altered."],
     true)
  else
    match existingEntry with
    | some _ =>
        ([Effect.readSheet gameRequestSubSheet,
          Effect.chat respondTo "Game request already present in spreadsheet."],
         true)
    | none =>
        ([Effect.readSheet gameRequestSubSheet,
          Effect.addEntry gameName,
          Effect.pushSheet gameRequestSubSheet,
          Effect.chat respondTo "Game request successfully added."],
         true)

/-- The cheer event fields `handleCheer`'s task inspects. -/
structure CheerEvent where
  is_anonymous : Bool
  user_id : Option String
  user_name : Option String
  bits : Int
  deriving DecidableEq, Repr

/-- The task queued by `handleCheer`.  Anonymous or user-less cheers resolve
the future and return at once; otherwise the task reads the bidwar sheet, adds
the bits, pushes — and never resolves the future.  Returns the effects and
whether the future was resolved. -/
def handleCheerTask (event : CheerEvent) : List Effect × Bool :=
  match event.is_anonymous, event.user_id, event.user_name with
  | false, some uid, some uname =>
      ([Effect.readSheet bidwarSubSheet,
        Effect.addBitsToUser uid uname event.bits,
        Effect.pushSheet bidwarSubSheet],
       false)
  | _, _, _ => ([], true)

/-- Result of `Bidwar_Spreadsheet.spendBitsOnEntry` as `handleBidwarContribute`
consumes it. -/
structure SpendBitsStatus where
  success : Bool
  message : Option String
  deriving DecidableEq, Repr

/-- The task queued by `handleBidwarContribute`, as a function of the status
its spreadsheet mutation reports.  Returns the effects and whether the future
was resolved — the source never resolves it on any path. -/
def handleBidwarContributeTask (respondTo userId username gameName : String)
    (bits : Int) (status : SpendBitsStatus) : List Effect × Bool :=
  let base := [Effect.readSheet bidwarSubSheet,
               Effect.spendBits userId username gameName bits]
  let statusChat := match status.message with
    | some m => [Effect.chat respondTo m]
    | none => []
  if status.success then
    (base ++ statusChat ++
      [Effect.pushSheet bidwarSubSheet,
       Effect.chat respondTo ("@" ++ username ++
         ", your bits were successfully contributed to " ++ gameName ++ ".")],
     false)
  else
    (base ++ statusChat, false)

/-- C1: the claim as stated is false on the code.  At an entry that is
already overfunded (pointsContributed = 10 > 5 = pointsToActivate), a
1-point contribution satisfies pointsContributed + points > pointsToActivate,
yet `handleGameRequestFund` resolves Fulfilled, not PendingConfirmation. -/
theorem C1_counterexample :
    ¬ (((10 : Int) + 1 > 5) →
        (handleGameRequestFundTask "#chan" "game" "user" 1
            (some { gameName := "game", pointsContributed := 10, pointsToActivate := 5 })).1.type
          = FundGameRequestOutcomeType.PendingConfirmation) := by
  decide

/-- C1 (amended): for an existing entry that is not already overfunded
(pointsContributed ≤ pointsToActivate), a contribution that would overfund the
goal resolves PendingConfirmation with overfundAmount
pointsContributed + points - pointsToActivate, the funding withheld (no push
among the task's own effects, the push deferred into the supplied complete
operation); otherwise the points are applied immediately and the outcome is
Fulfilled. -/
theorem C1_amended (respondTo gameName username : String) (points : Int)
    (e : GameRequestEntry) (h : e.pointsContributed ≤ e.pointsToActivate) :
    (e.pointsContributed + points > e.pointsToActivate →
      (handleGameRequestFundTask respondTo gameName username points (some e)).1.type
          = FundGameRequestOutcomeType.PendingConfirmation ∧
        (handleGameRequestFundTask respondTo gameName username points (some e)).1.overfundAmount
          = some (e.pointsContributed + points - e.pointsToActivate) ∧
        Effect.pushSheet gameRequestSubSheet ∉
          (handleGameRequestFundTask respondTo gameName username points (some e)).2 ∧
        (handleGameRequestFundTask respondTo gameName username points (some e)).1.complete
          = some (completeFundingEffects respondTo gameName username points)) ∧
    (¬ e.pointsContributed + points > e.pointsToActivate →
      (handleGameRequestFundTask respondTo gameName username points (some e)).1.type
          = FundGameRequestOutcomeType.Fulfilled ∧
        Effect.addPointsToEntry username gameName points ∈
          (handleGameRequestFundTask respondTo gameName username points (some e)).2 ∧
        Effect.pushSheet gameRequestSubSheet ∈
          (handleGameRequestFundTask respondTo gameName username points (some e)).2) := by
  constructor
  · intro hover
    simp only [handleGameRequestFundTask, if_pos (And.intro h hover)]
    refine ⟨trivial, trivial, ?_, trivial⟩
    simp [gameRequestSubSheet]
  · intro hnot
    have hcond : ¬ (e.pointsContributed ≤ e.pointsToActivate ∧
        e.pointsContributed + points > e.pointsToActivate) := by
      intro hc
      exact hnot hc.2
    simp only [handleGameRequestFundTask, if_neg hcond]
    refine ⟨trivial, ?_, ?_⟩
    · simp [completeFundingEffects]
    · simp [completeFundingEffects]

/-- C1 amended, witnessed at a concrete overfunding contribution: entry with
3 of 5 points funded, a 4-point contribution crosses the goal by 2. -/
theorem C1_amended_witness :
    (handleGameRequestFundTask "#chan" "game" "user" 4
        (some { gameName := "game", pointsContributed := 3, pointsToActivate := 5 })).1.type
      = FundGameRequestOutcomeType.PendingConfirmation ∧
    (handleGameRequestFundTask "#chan" "game" "user" 4
        (some { gameName := "game", pointsContributed := 3, pointsToActivate := 5 })).1.overfundAmount
      = some 2 :=
  let h := C1_amended "#chan" "game" "user" 4
    { gameName := "game", pointsContributed := 3, pointsToActivate := 5 } (by decide)
  ⟨(h.1 (by decide)).1, (h.1 (by decide)).2.1⟩

/-- C8: an entry already overfunded before the contribution
(pointsContributed > pointsToActivate) is funded immediately — Fulfilled, the
points applied and pushed, no confirmation requested — and the
PendingConfirmation outcome arises only when the contribution crosses the goal
from not-overfunded to overfunded. -/
theorem C8_already_overfunded_funds_immediately (respondTo gameName username : String)
    (points : Int) (e : GameRequestEntry) :
    (e.pointsContributed > e.pointsToActivate → 0 < points →
      (handleGameRequestFundTask respondTo gameName username points (some e)).1.type
          = FundGameRequestOutcomeType.Fulfilled ∧
        Effect.addPointsToEntry username gameName points ∈
          (handleGameRequestFundTask respondTo gameName username points (some e)).2 ∧
        (handleGameRequestFundTask respondTo gameName username points (some e)).1.overfundAmount
          = none) ∧
    ((handleGameRequestFundTask respondTo gameName username points (some e)).1.type
        = FundGameRequestOutcomeType.PendingConfirmation →
      e.pointsContributed ≤ e.pointsToActivate ∧
        e.pointsContributed + points > e.pointsToActivate) := by
  constructor
  · intro hover _
    have hcond : ¬ (e.pointsContributed ≤ e.pointsToActivate ∧
        e.pointsContributed + points > e.pointsToActivate) := by
      intro hc
      exact absurd hc.1 (not_le.mpr hover)
    simp only [handleGameRequestFundTask, if_neg hcond]
    refine ⟨trivial, ?_, trivial⟩
    simp [completeFundingEffects]
  · intro hpend
    by_cases hcond : e.pointsContributed ≤ e.pointsToActivate ∧
        e.pointsContributed + points > e.pointsToActivate
    · exact hcond
    · simp only [handleGameRequestFundTask, if_neg hcond] at hpend
      exact absurd hpend (by decide)

/-- C8 witnessed at a concrete already-overfunded entry: 10 of 5 points
funded, a 1-point contribution is applied immediately. -/
theorem C8_witness :
    (handleGameRequestFundTask "#chan" "game" "user" 1
        (some { gameName := "game", pointsContributed := 10, pointsToActivate := 5 })).1.type
      = FundGameRequestOutcomeType.Fulfilled ∧
    Effect.addPointsToEntry "user" "game" 1 ∈
      (handleGameRequestFundTask "#chan" "game" "user" 1
        (some { gameName := "game", pointsContributed := 10, pointsToActivate := 5 })).2 :=
  let h := (C8_already_overfunded_funds_immediately "#chan" "game" "user" 1
    { gameName := "game", pointsContributed := 10, pointsToActivate := 5 }).1
    (by decide) (by decide)
  ⟨h.1, h.2.1⟩

/-- C6: when a game-request task cannot complete the request — unknown game in
`handleGameRequestFund`, failed read or already-present game in
`handleGameRequestAdd` — the user is notified in chat, no push to the remote
spreadsheet occurs, and the funding outcome is Unfulfilled. -/
theorem C6_failure_notifies_without_write (respondTo gameName username : String)
    (points : Int) (entry : Option GameRequestEntry) :
    ((handleGameRequestFundTask respondTo gameName username points none).1.type
        = FundGameRequestOutcomeType.Unfulfilled ∧
      (∃ m, Effect.chat respondTo m ∈
        (handleGameRequestFundTask respondTo gameName username points none).2) ∧
      (∀ ss, Effect.pushSheet ss ∉
        (handleGameRequestFundTask respondTo gameName username points none).2)) ∧
    ((∃ m, Effect.chat respondTo m ∈
        (handleGameRequestAddTask respondTo gameName false entry).1) ∧
      (∀ ss, Effect.pushSheet ss ∉
        (handleGameRequestAddTask respondTo gameName false entry).1)) ∧
    (∀ e : GameRequestEntry,
      (∃ m, Effect.chat respondTo m ∈
        (handleGameRequestAddTask respondTo gameName true (some e)).1) ∧
      (∀ ss, Effect.pushSheet ss ∉
        (handleGameRequestAddTask respondTo gameName true (some e)).1)) := by
  refine ⟨⟨rfl, ?_, ?_⟩, ⟨?_, ?_⟩, ?_⟩
  · exact ⟨"@" ++ username ++
      ", your game request was detected as a new request; please wait until an admin adds this game to the spreadsheet before adding any further points",
      by simp [handleGameRequestFundTask]⟩
  · intro ss
    simp [handleGameRequestFundTask]
  · exact ⟨"Failed to read game request spreadsheet. No data altered.",
      by simp [handleGameRequestAddTask]⟩
  · intro ss
    simp [handleGameRequestAddTask]
  · intro e
    refine ⟨⟨"Game request already present in spreadsheet.",
      by simp [handleGameRequestAddTask]⟩, ?_⟩
    intro ss
    simp [handleGameRequestAddTask]

/-- C6 witnessed at a concrete unknown game: the fund task resolves
Unfulfilled and emits no push to the game-request sheet. -/
theorem C6_witness :
    (handleGameRequestFundTask "#chan" "game" "user" 5 none).1.type
        = FundGameRequestOutcomeType.Unfulfilled ∧
      Effect.pushSheet gameRequestSubSheet ∉
        (handleGameRequestFundTask "#chan" "game" "user" 5 none).2 :=
  let h := C6_failure_notifies_without_write "#chan" "game" "user" 5 none
  ⟨h.1.1, h.1.2.2 gameRequestSubSheet⟩

/-- C4 (claim refuted by the code): the task queued by `handleCheer` for a
non-anonymous cheer with both user fields present runs to completion but never
resolves the returned future, and the task queued by `handleBidwarContribute`
resolves its future on no path at all — here evaluated at a successful
contribution. -/
theorem C4_future_left_unsettled :
    (handleCheerTask
        { is_anonymous := false, user_id := some "123",
          user_name := some "alice", bits := 100 }).2 = false ∧
    (handleBidwarContributeTask "#chan" "123" "alice" "game" 100
        { success := true, message := none }).2 = false ∧
    (handleBidwarContributeTask "#chan" "123" "alice" "game" 100
        { success := false, message := some "insufficient funds" }).2 = false := by
  decide

/-- C9: for an anonymous cheer, or one with user_id or user_name undefined,
the task queued by `handleCheer` resolves its future and returns with no
effects at all — in particular it neither reads nor writes the bidwar
spreadsheet. -/
theorem C9_anonymous_cheer_no_ledger_access (event : CheerEvent)
    (h : event.is_anonymous = true ∨ event.user_id = none ∨ event.user_name = none) :
    (handleCheerTask event).1 = [] ∧ (handleCheerTask event).2 = true := by
  match hev : event with
  | { is_anonymous := ianon, user_id := uid, user_name := uname, bits := b } =>
    cases ianon with
    | true => exact ⟨rfl, rfl⟩
    | false =>
      cases uid with
      | none => exact ⟨rfl, rfl⟩
      | some u =>
        cases uname with
        | none => exact ⟨rfl, rfl⟩
        | some v =>
          subst hev
          simp at h

/-- C9 witnessed at a concrete anonymous cheer. -/
theorem C9_witness :
    (handleCheerTask
        { is_anonymous := true, user_id := some "123",
          user_name := some "alice", bits := 100 }).1 = [] :=
  (C9_anonymous_cheer_no_ledger_access
    { is_anonymous := true, user_id := some "123",
      user_name := some "alice", bits := 100 } (Or.inl rfl)).1

/-- The task a GoogleAPI handler submits to the queue, tagged by which handler
built it, with the arguments the closure captured. -/
inductive SubmittedTask where
  | gameRequestFund (respondTo gameName username : String) (points : Int)
  | gameRequestAdd (respondTo gameName : String) (gameLengthHours : Int)
      (pointsToActivate : Option Int) (username : String) (points : Int)
  | cheer (event : CheerEvent)
  | bidwarContribute (respondTo userId username gameName : String) (bits : Int)
  | bidwarAddEntry (respondTo gameName : String)
  | bidwarAddFunds (respondTo userId username : String) (amount : Int)
      (source : Option String)
  deriving DecidableEq, Repr

/-- The mutable state of one GoogleAPI instance at the submission level: its
single `_taskQueue` field (the pending tasks, in submission order). -/
structure GoogleAPIState where
  taskQueue : List SubmittedTask
  deriving DecidableEq, Repr

/-- Submission step of `handleGameRequestFund`: `this._taskQueue.addTask(task)`
on the instance's one queue. -/
def handleGameRequestFund_submit (s : GoogleAPIState)
    (respondTo gameName username : String) (points : Int) : GoogleAPIState :=
  { s with taskQueue := s.taskQueue ++
      [SubmittedTask.gameRequestFund respondTo gameName username points] }

/-- Submission step of `handleGameRequestAdd` on the same queue field. -/
def handleGameRequestAdd_submit (s : GoogleAPIState) (respondTo gameName : String)
    (gameLengthHours : Int) (pointsToActivate : Option Int)
    (username : String) (points : Int) : GoogleAPIState :=
  { s with taskQueue := s.taskQueue ++
      [SubmittedTask.gameRequestAdd respondTo gameName gameLengthHours
        pointsToActivate username points] }

/-- Submission step of `handleCheer` on the same queue field. -/
def handleCheer_submit (s : GoogleAPIState) (event : CheerEvent) : GoogleAPIState :=
  { s with taskQueue := s.taskQueue ++ [SubmittedTask.cheer event] }

/-- Submission step of `handleBidwarContribute` on the same queue field. -/
def handleBidwarContribute_submit (s : GoogleAPIState)
    (respondTo userId username gameName : String) (bits : Int) : GoogleAPIState :=
  { s with taskQueue := s.taskQueue ++
      [SubmittedTask.bidwarContribute respondTo userId username gameName bits] }

/-- Submission step of `handleBidwarAddEntry` on the same queue field. -/
def handleBidwarAddEntry_submit (s : GoogleAPIState)
    (respondTo gameName : String) : GoogleAPIState :=
  { s with taskQueue := s.taskQueue ++
      [SubmittedTask.bidwarAddEntry respondTo gameName] }

/-- Submission step of `handleBidwarAddFunds` on the same queue field. -/
def handleBidwarAddFunds_submit (s : GoogleAPIState)
    (respondTo userId username : String) (amount : Int)
    (source : Option String) : GoogleAPIState :=
  { s with taskQueue := s.taskQueue ++
      [SubmittedTask.bidwarAddFunds respondTo userId username amount source] }

/-- Dispatch an incoming handler call to the handler that serves it; every
branch submits through that handler's submission step. -/
def submitCall (c : SubmittedTask) (s : GoogleAPIState) : GoogleAPIState :=
  match c with
  | SubmittedTask.gameRequestFund r g u p => handleGameRequestFund_submit s r g u p
  | SubmittedTask.gameRequestAdd r g l a u p => handleGameRequestAdd_submit s r g l a u p
  | SubmittedTask.cheer ev => handleCheer_submit s ev
  | SubmittedTask.bidwarContribute r i u g b => handleBidwarContribute_submit s r i u g b
  | SubmittedTask.bidwarAddEntry r g => handleBidwarAddEntry_submit s r g
  | SubmittedTask.bidwarAddFunds r i u a src => handleBidwarAddFunds_submit s r i u a src

theorem submitCall_taskQueue (c : SubmittedTask) (s : GoogleAPIState) :
    (submitCall c s).taskQueue = s.taskQueue ++ [c] := by
  cases c <;> rfl

/-- C5: every handler — game-request fund and add, cheer, and all three
bidwar writes — appends its task to the one shared `_taskQueue` of the
GoogleAPI instance, so any interleaving of handler calls leaves all their
tasks in that single queue, in submission order: game-request and bidwar
writes are mutually ordered. -/
theorem C5_single_shared_queue (calls : List SubmittedTask) (s : GoogleAPIState) :
    (calls.foldl (fun st c => submitCall c st) s).taskQueue
      = s.taskQueue ++ calls := by
  induction calls generalizing s with
  | nil => simp
  | cons c rest ih =>
      simp only [List.foldl_cons, ih, submitCall_taskQueue, List.append_assoc,
        List.singleton_append]

/-- Maximum chat message length Twitch accepts
(TwitchBotBase.maxChatMessageLength). -/
def maxChatMessageLength : Nat := 500

/-- The fixed placeholder sent in place of an over-length message. -/
def messageTooLongPlaceholder : String :=
  "<Message was too long. Please file a bug report with the owner :)>"

/-- `TwitchBotBase.chat`: forwards the message to the underlying IRC chat
output unless it exceeds `maxChatMessageLength`, in which case the fixed
placeholder is forwarded instead.  Returns what `super.chat` receives. -/
def chat (recipient message : String) : String × String :=
  if message.length > maxChatMessageLength then
    (recipient, messageTooLongPlaceholder)
  else
    (recipient, message)

/-- C10: `chat` forwards the message unchanged exactly when its length is at
most 500 characters; any longer message is replaced by the fixed placeholder,
so the over-length text is never sent; the recipient is forwarded as is. -/
theorem C10_chat_length_guard (recipient message : String) :
    ((chat recipient message).2 = message ↔
      message.length ≤ maxChatMessageLength) ∧
    (message.length > maxChatMessageLength →
      (chat recipient message).2 = messageTooLongPlaceholder) ∧
    (chat recipient message).1 = recipient := by
  have hplen : messageTooLongPlaceholder.length = 66 := by decide
  by_cases h : message.length ≤ maxChatMessageLength
  · have hno : ¬ message.length > maxChatMessageLength := not_lt.mpr h
    refine ⟨?_, ?_, ?_⟩
    · simp [chat, hno, h]
    · intro hgt
      exact absurd hgt hno
    · simp [chat, hno]
  · have hgt : message.length > maxChatMessageLength := not_le.mp h
    refine ⟨?_, ?_, ?_⟩
    · simp only [chat, if_pos hgt]
      constructor
      · intro heq
        have hlen : message.length = 66 := by
          rw [← heq]
          exact hplen
        exact absurd (show message.length ≤ maxChatMessageLength by
          rw [hlen]; decide) h
      · intro hle
        exact absurd hle h
    · intro _
      simp [chat, hgt]
    · simp [chat, hgt]

/-- C10 witnessed at a 501-character message: the placeholder is forwarded. -/
theorem C10_witness :
    (chat "#chan" (String.mk (List.replicate 501 'a'))).2
      = messageTooLongPlaceholder :=
  (C10_chat_length_guard "#chan" (String.mk (List.replicate 501 'a'))).2.1
    (by
      have h : (String.mk (List.replicate 501 'a')).length = 501 :=
        List.length_replicate 501 'a'
      rw [gt_iff_lt, h]
      decide)

/-- Modelled from the spec: the Deferred Value (`Future` class, src/Future.ts,
which is not under src/).  State is pending or settled; `resolve` settles a
pending instance and silently ignores later calls (the spec allows either
documented behavior); `get` reads the settled value. -/
inductive Future (α : Type) where
  | pending
  | settled (value : α)
  deriving DecidableEq, Repr

/-- Modelled from the spec: `resolve` transitions pending to settled; once
settled, the value never changes. -/
def Future.resolve {α : Type} : Future α → α → Future α
  | Future.pending, v => Future.settled v
  | Future.settled w, _ => Future.settled w

/-- Modelled from the spec: `get` returns the settled value (a consumer that
awaits a pending instance observes the eventual settled value). -/
def Future.get {α : Type} : Future α → Option α
  | Future.pending => none
  | Future.settled v => some v

/-- Apply a whole sequence of `resolve` calls. -/
def Future.resolveAll {α : Type} (f : Future α) (vs : List α) : Future α :=
  vs.foldl Future.resolve f

/-- Number of `resolve` calls in the sequence that change the state. -/
def Future.countChanges {α : Type} [DecidableEq α] : Future α → List α → Nat
  | _, [] => 0
  | f, v :: vs =>
      (if Future.resolve f v = f then 0 else 1) +
        Future.countChanges (Future.resolve f v) vs

/-- `GoogleAPI.startup`: resolves the `_googleSheets` future with the sheets
handle obtained from the authenticated client. -/
def startup {α : Type} (sheets : α) (googleSheets : Future α) : Future α :=
  Future.resolve googleSheets sheets

theorem Future.resolveAll_settled {α : Type} (w : α) (vs : List α) :
    Future.resolveAll (Future.settled w) vs = Future.settled w := by
  induction vs with
  | nil => rfl
  | cons v vs ih => simpa [Future.resolveAll, Future.resolve] using ih

theorem Future.countChanges_settled {α : Type} [DecidableEq α] (w : α)
    (vs : List α) : Future.countChanges (Future.settled w) vs = 0 := by
  induction vs with
  | nil => rfl
  | cons v vs ih => simp [Future.countChanges, Future.resolve, ih]

/-- C7: over any sequence of `resolve` calls on a Future, at most one call
changes the state; once settled — in particular once `startup` has resolved
`_googleSheets` — every later `get`, after arbitrarily many further `resolve`
calls, returns the same value, so all consumers observe the same handle. -/
theorem C7_future_settles_once {α : Type} [DecidableEq α]
    (vs ws : List α) (v : α) :
    (Future.countChanges (Future.pending : Future α) vs ≤ 1) ∧
    (Future.get (Future.resolveAll (Future.settled v) vs) = some v) ∧
    (Future.get (Future.resolveAll (startup v (Future.pending : Future α)) ws)
      = some v) := by
  refine ⟨?_, ?_, ?_⟩
  · cases vs with
    | nil => simp [Future.countChanges]
    | cons u us =>
        simp [Future.countChanges, Future.resolve, Future.countChanges_settled]
  · rw [Future.resolveAll_settled]
    rfl
  · show Future.get (Future.resolveAll (Future.settled v) ws) = some v
    rw [Future.resolveAll_settled]
    rfl

/-- Modelled from the spec: settlement state of a Held Action (`HeldTask`
class, src/HeldTask.ts, which is not under src/). -/
inductive HeldTaskState where
  | pending
  | completed
  | cancelled
  deriving DecidableEq, Repr

/-- Modelled from the spec: the three settlement events that race for one
Held Action — an explicit `complete(key)`, an explicit `cancel(key)`, and the
deadline timer firing. -/
inductive HeldTaskAction where
  | complete
  | cancel
  | deadline
  deriving DecidableEq, Repr

/-- Modelled from the spec: the single-writer settlement step.  From pending,
`complete` runs the completion operation and `cancel`/`deadline` run the
cancellation operation; from any settled state every event is a no-op.
Returns the new state and whether the completion / cancellation operation ran
during this step. -/
def HeldTask.step : HeldTaskState → HeldTaskAction → HeldTaskState × Bool × Bool
  | HeldTaskState.pending, HeldTaskAction.complete =>
      (HeldTaskState.completed, true, false)
  | HeldTaskState.pending, HeldTaskAction.cancel =>
      (HeldTaskState.cancelled, false, true)
  | HeldTaskState.pending, HeldTaskAction.deadline =>
      (HeldTaskState.cancelled, false, true)
  | s, _ => (s, false, false)

/-- Run a Held Action from a given state through a sequence of settlement
events, counting how many times each operation ran. -/
def HeldTask.runFrom : HeldTaskState → List HeldTaskAction → HeldTaskState × Nat × Nat
  | s, [] => (s, 0, 0)
  | s, a :: as =>
      let r := HeldTask.step s a
      let rest := HeldTask.runFrom r.1 as
      (rest.1,
       (if r.2.1 then 1 else 0) + rest.2.1,
       (if r.2.2 then 1 else 0) + rest.2.2)

/-- Run a freshly registered Held Action through a sequence of events. -/
def HeldTask.run (as : List HeldTaskAction) : HeldTaskState × Nat × Nat :=
  HeldTask.runFrom HeldTaskState.pending as

theorem HeldTask.step_settled (s : HeldTaskState) (a : HeldTaskAction)
    (h : s ≠ HeldTaskState.pending) : HeldTask.step s a = (s, false, false) := by
  cases s with
  | pending => exact absurd rfl h
  | completed => cases a <;> rfl
  | cancelled => cases a <;> rfl

theorem HeldTask.runFrom_settled (s : HeldTaskState) (as : List HeldTaskAction)
    (h : s ≠ HeldTaskState.pending) : HeldTask.runFrom s as = (s, 0, 0) := by
  induction as with
  | nil => rfl
  | cons a as ih =>
      simp [HeldTask.runFrom, HeldTask.step_settled s a h, ih]

theorem HeldTask.runFrom_all_deadline (as : List HeldTaskAction)
    (h1 : HeldTaskAction.complete ∉ as) (h2 : HeldTaskAction.cancel ∉ as) :
    HeldTask.runFrom HeldTaskState.pending as = (HeldTaskState.pending, 0, 0) ∨
    HeldTask.runFrom HeldTaskState.pending as = (HeldTaskState.cancelled, 0, 1) := by
  cases as with
  | nil => exact Or.inl rfl
  | cons a as =>
      cases a with
      | complete => exact absurd (List.mem_cons_self _ _) h1
      | cancel => exact absurd (List.mem_cons_self _ _) h2
      | deadline =>
          right
          simp [HeldTask.runFrom, HeldTask.step,
            HeldTask.runFrom_settled HeldTaskState.cancelled as (by decide)]

theorem HeldTask.runFrom_append (s : HeldTaskState)
    (as bs : List HeldTaskAction) :
    HeldTask.runFrom s (as ++ bs)
      = ((HeldTask.runFrom (HeldTask.runFrom s as).1 bs).1,
         (HeldTask.runFrom s as).2.1 + (HeldTask.runFrom (HeldTask.runFrom s as).1 bs).2.1,
         (HeldTask.runFrom s as).2.2 + (HeldTask.runFrom (HeldTask.runFrom s as).1 bs).2.2) := by
  induction as generalizing s with
  | nil => simp [HeldTask.runFrom]
  | cons a as ih =>
      simp [HeldTask.runFrom, ih, Nat.add_assoc]

/-- C2: for a registered Held Action, at most one of the completion and
cancellation operations ever runs over any event sequence, and exactly one
runs as soon as any settlement event occurs; if neither `complete` nor
`cancel` arrives before the deadline fires, the cancellation operation runs
exactly once and the completion operation never, whatever late calls follow;
and from a settled state every further event is a no-op. -/
theorem C2_held_task_exactly_once (as tail : List HeldTaskAction) :
    ((HeldTask.run as).2.1 + (HeldTask.run as).2.2 ≤ 1) ∧
    (as ≠ [] → (HeldTask.run as).2.1 + (HeldTask.run as).2.2 = 1) ∧
    ((HeldTaskAction.complete ∉ as ∧ HeldTaskAction.cancel ∉ as) →
      (HeldTask.run (as ++ HeldTaskAction.deadline :: tail)).2.1 = 0 ∧
      (HeldTask.run (as ++ HeldTaskAction.deadline :: tail)).2.2 = 1) ∧
    (∀ s a, s ≠ HeldTaskState.pending → HeldTask.step s a = (s, false, false)) := by
  have hone : ∀ a as', (HeldTask.run (a :: as')).2.1 + (HeldTask.run (a :: as')).2.2 = 1 := by
    intro a as'
    cases a with
    | complete =>
        simp [HeldTask.run, HeldTask.runFrom, HeldTask.step,
          HeldTask.runFrom_settled HeldTaskState.completed as' (by decide)]
    | cancel =>
        simp [HeldTask.run, HeldTask.runFrom, HeldTask.step,
          HeldTask.runFrom_settled HeldTaskState.cancelled as' (by decide)]
    | deadline =>
        simp [HeldTask.run, HeldTask.runFrom, HeldTask.step,
          HeldTask.runFrom_settled HeldTaskState.cancelled as' (by decide)]
  refine ⟨?_, ?_, ?_, fun s a h => HeldTask.step_settled s a h⟩
  · cases as with
    | nil => simp [HeldTask.run, HeldTask.runFrom]
    | cons a as' => exact le_of_eq (hone a as')
  · intro hne
    cases as with
    | nil => exact absurd rfl hne
    | cons a as' => exact hone a as'
  · intro h
    have hsplit := HeldTask.runFrom_append HeldTaskState.pending as
      (HeldTaskAction.deadline :: tail)
    rcases HeldTask.runFrom_all_deadline as h.1 h.2 with hcase | hcase
    · rw [HeldTask.run, hsplit, hcase]
      simp [HeldTask.runFrom, HeldTask.step,
        HeldTask.runFrom_settled HeldTaskState.cancelled tail (by decide)]
    · rw [HeldTask.run, hsplit, hcase]
      simp [HeldTask.runFrom_settled HeldTaskState.cancelled
        (HeldTaskAction.deadline :: tail) (by decide)]

/-- C2 witnessed at a concrete race: the user completes, then a late cancel
and the deadline both arrive — the completion operation ran once, the
cancellation operation never; and an unanswered registration where the
deadline fires before any call cancels exactly once. -/
theorem C2_witness :
    ((HeldTask.run [HeldTaskAction.complete, HeldTaskAction.cancel,
        HeldTaskAction.deadline]).2.1 +
      (HeldTask.run [HeldTaskAction.complete, HeldTaskAction.cancel,
        HeldTaskAction.deadline]).2.2 = 1) ∧
    ((HeldTask.run ([] ++ HeldTaskAction.deadline ::
        [HeldTaskAction.complete])).2.1 = 0 ∧
      (HeldTask.run ([] ++ HeldTaskAction.deadline ::
        [HeldTaskAction.complete])).2.2 = 1) :=
  ⟨(C2_held_task_exactly_once [HeldTaskAction.complete, HeldTaskAction.cancel,
      HeldTaskAction.deadline] []).2.1 (by decide),
   (C2_held_task_exactly_once [] [HeldTaskAction.complete]).2.2.1
      (by exact ⟨List.not_mem_nil _, List.not_mem_nil _⟩)⟩

/-- Modelled from the spec: an observable event of the Serialized Task
Executor (`TaskQueue` class, src/TaskQueue.ts, which is not under src/).
Tasks are identified by their submission index. -/
inductive QEvent where
  | submitted (id : Nat)
  | started (id : Nat)
  | finished (id : Nat)
  deriving DecidableEq, Repr

/-- Modelled from the spec: the stimuli the executor reacts to — `addTask`
(submit), `startQueue` (trigger the drain loop; a no-op while draining), and
the completion of the currently running task (which lets the drain loop move
to the next task or stop). -/
inductive QAction where
  | addTask
  | startQueue
  | completeTask
  deriving DecidableEq, Repr

/-- Modelled from the spec: executor state — the pending task ids in
submission order, the running task if any (the "currently draining" flag is
`running.isSome`), the next fresh id, and the chronological event trace. -/
structure TaskQueue where
  nextId : Nat
  pending : List Nat
  running : Option Nat
  trace : List QEvent
  deriving DecidableEq, Repr

/-- Modelled from the spec: one executor step.  `addTask` appends to the tail
and never touches the running task; `startQueue` starts the head task only
when nothing is running; a task completion lets the loop pop the next head or
stop when the queue is empty. -/
def TaskQueue.step (q : TaskQueue) : QAction → TaskQueue
  | QAction.addTask =>
      { q with nextId := q.nextId + 1,
               pending := q.pending ++ [q.nextId],
               trace := q.trace ++ [QEvent.submitted q.nextId] }
  | QAction.startQueue =>
      match q.running, q.pending with
      | none, t :: rest =>
          { q with pending := rest, running := some t,
                   trace := q.trace ++ [QEvent.started t] }
      | _, _ => q
  | QAction.completeTask =>
      match q.running with
      | some t =>
          match q.pending with
          | t2 :: rest =>
              { q with pending := rest, running := some t2,
                       trace := q.trace ++ [QEvent.finished t, QEvent.started t2] }
          | [] =>
              { q with running := none,
                       trace := q.trace ++ [QEvent.finished t] }
      | none => q

/-- Run a fresh executor through a sequence of stimuli. -/
def TaskQueue.run (as : List QAction) : TaskQueue :=
  as.foldl TaskQueue.step ⟨0, [], none, []⟩

/-- Ids of the tasks started so far, in start order. -/
def startedIds (tr : List QEvent) : List Nat :=
  tr.filterMap fun e => match e with | QEvent.started i => some i | _ => none

/-- Ids of the tasks finished so far, in finish order. -/
def finishedIds (tr : List QEvent) : List Nat :=
  tr.filterMap fun e => match e with | QEvent.finished i => some i | _ => none

/-- Ids of the tasks submitted so far, in submission order. -/
def submittedIds (tr : List QEvent) : List Nat :=
  tr.filterMap fun e => match e with | QEvent.submitted i => some i | _ => none

/-- Scan a trace keeping track of the running task: a start is legal only
when nothing is running, a finish only of the running task.  Returns the
final running task, or `none` (outer) at the first violation. -/
def scanRunning : Option Nat → List QEvent → Option (Option Nat)
  | r, [] => some r
  | r, QEvent.submitted _ :: rest => scanRunning r rest
  | r, QEvent.started i :: rest =>
      match r with
      | none => scanRunning (some i) rest
      | some _ => none
  | r, QEvent.finished i :: rest =>
      match r with
      | some j => if j = i then scanRunning none rest else none
      | none => none

theorem scanRunning_append (tr tr2 : List QEvent) :
    ∀ r : Option Nat, scanRunning r (tr ++ tr2)
      = (scanRunning r tr).bind fun r' => scanRunning r' tr2 := by
  induction tr with
  | nil => intro r; rfl
  | cons e rest ih =>
      intro r
      cases e with
      | submitted i => simpa [scanRunning] using ih r
      | started i =>
          cases r with
          | none => simpa [scanRunning] using ih (some i)
          | some j => rfl
      | finished i =>
          cases r with
          | none => rfl
          | some j =>
              by_cases hj : j = i
              · simpa [scanRunning, hj] using ih none
              · simp [scanRunning, hj]

theorem range_drop_cons {n k t : Nat} {rest : List Nat}
    (h : (List.range n).drop k = t :: rest) :
    t = k ∧ rest = (List.range n).drop (k + 1) ∧ k < n := by
  have hk : k < n := by
    by_contra hge
    push_neg at hge
    have hnil : (List.range n).drop k = [] :=
      List.drop_eq_nil_of_le (by simpa using hge)
    rw [hnil] at h
    exact List.noConfusion h
  have hd := List.drop_eq_getElem_cons (l := List.range n) (n := k)
    (by simpa using hk)
  rw [List.getElem_range] at hd
  rw [hd] at h
  injection h with h1 h2
  exact ⟨h1.symm, h2.symm, hk⟩

/-- Invariant tying an executor state to its trace: submissions are the ids
in order, the started tasks are exactly the first `k` submitted ones in
submission order, the pending list is the not-yet-started tail, the trace
scans cleanly to the current running task, and the running task (if any) is
the most recently started one. -/
def QInv (q : TaskQueue) : Prop :=
  submittedIds q.trace = List.range q.nextId ∧
  ∃ k, k ≤ q.nextId ∧
    startedIds q.trace = List.range k ∧
    q.pending = (List.range q.nextId).drop k ∧
    scanRunning none q.trace = some q.running ∧
    (∀ i, q.running = some i → i + 1 = k)

theorem submittedIds_append (tr tr2 : List QEvent) :
    submittedIds (tr ++ tr2) = submittedIds tr ++ submittedIds tr2 := by
  simp [submittedIds, List.filterMap_append]

theorem startedIds_append (tr tr2 : List QEvent) :
    startedIds (tr ++ tr2) = startedIds tr ++ startedIds tr2 := by
  simp [startedIds, List.filterMap_append]

theorem finishedIds_append (tr tr2 : List QEvent) :
    finishedIds (tr ++ tr2) = finishedIds tr ++ finishedIds tr2 := by
  simp [finishedIds, List.filterMap_append]

theorem QInv_step (q : TaskQueue) (a : QAction) (h : QInv q) :
    QInv (TaskQueue.step q a) := by
  obtain ⟨hsub, k, hk, hstart, hpend, hscan, hlink⟩ := h
  cases a with
  | addTask =>
      refine ⟨?_, k, Nat.le_succ_of_le hk, ?_, ?_, ?_, ?_⟩
      · show submittedIds (q.trace ++ [QEvent.submitted q.nextId])
          = List.range (q.nextId + 1)
        rw [submittedIds_append, hsub, List.range_succ]
        rfl
      · show startedIds (q.trace ++ [QEvent.submitted q.nextId]) = List.range k
        rw [startedIds_append, hstart]
        simp [startedIds]
      · show q.pending ++ [q.nextId] = (List.range (q.nextId + 1)).drop k
        rw [hpend, List.range_succ,
          List.drop_append_of_le_length (by simpa using hk)]
      · show scanRunning none (q.trace ++ [QEvent.submitted q.nextId])
          = some q.running
        rw [scanRunning_append, hscan]
        rfl
      · exact hlink
  | startQueue =>
      cases hr : q.running with
      | some t =>
          cases hp : q.pending with
          | nil =>
              simp only [TaskQueue.step, hr, hp]
              exact ⟨hsub, k, hk, hstart, hpend, hscan, hlink⟩
          | cons t2 rest =>
              simp only [TaskQueue.step, hr, hp]
              exact ⟨hsub, k, hk, hstart, hpend, hscan, hlink⟩
      | none =>
          cases hp : q.pending with
          | nil =>
              simp only [TaskQueue.step, hr, hp]
              exact ⟨hsub, k, hk, hstart, hpend, hscan, hlink⟩
          | cons t rest =>
              have hdrop : (List.range q.nextId).drop k = t :: rest := by
                rw [← hpend, hp]
              obtain ⟨htk, hrest, hlt⟩ := range_drop_cons hdrop
              simp only [TaskQueue.step, hr, hp]
              refine ⟨?_, k + 1, hlt, ?_, ?_, ?_, ?_⟩
              · show submittedIds (q.trace ++ [QEvent.started t])
                  = List.range q.nextId
                rw [submittedIds_append, hsub]
                simp [submittedIds]
              · show startedIds (q.trace ++ [QEvent.started t])
                  = List.range (k + 1)
                rw [startedIds_append, hstart, List.range_succ, htk]
                rfl
              · exact hrest
              · show scanRunning none (q.trace ++ [QEvent.started t])
                  = some (some t)
                rw [scanRunning_append, hscan, hr]
                rfl
              · intro i hi
                injection hi with hi
                rw [← hi, htk]
  | completeTask =>
      cases hr : q.running with
      | none =>
          simp only [TaskQueue.step, hr]
          exact ⟨hsub, k, hk, hstart, hpend, hscan, hlink⟩
      | some t =>
          cases hp : q.pending with
          | nil =>
              simp only [TaskQueue.step, hr, hp]
              refine ⟨?_, k, hk, ?_, ?_, ?_, ?_⟩
              · show submittedIds (q.trace ++ [QEvent.finished t])
                  = List.range q.nextId
                rw [submittedIds_append, hsub]
                simp [submittedIds]
              · show startedIds (q.trace ++ [QEvent.finished t])
                  = List.range k
                rw [startedIds_append, hstart]
                simp [startedIds]
              · rw [← hp]
                exact hpend
              · show scanRunning none (q.trace ++ [QEvent.finished t])
                  = some none
                rw [scanRunning_append, hscan, hr]
                simp [scanRunning]
              · intro i hi
                exact Option.noConfusion hi
          | cons t2 rest =>
              have hdrop : (List.range q.nextId).drop k = t2 :: rest := by
                rw [← hpend, hp]
              obtain ⟨htk, hrest, hlt⟩ := range_drop_cons hdrop
              simp only [TaskQueue.step, hr, hp]
              refine ⟨?_, k + 1, hlt, ?_, ?_, ?_, ?_⟩
              · show submittedIds
                    (q.trace ++ [QEvent.finished t, QEvent.started t2])
                  = List.range q.nextId
                rw [submittedIds_append, hsub]
                simp [submittedIds]
              · show startedIds
                    (q.trace ++ [QEvent.finished t, QEvent.started t2])
                  = List.range (k + 1)
                rw [startedIds_append, hstart, List.range_succ, htk]
                rfl
              · exact hrest
              · show scanRunning none
                    (q.trace ++ [QEvent.finished t, QEvent.started t2])
                  = some (some t2)
                rw [scanRunning_append, hscan, hr]
                simp [scanRunning]
              · intro i hi
                injection hi with hi
                rw [← hi, htk]

theorem QInv_foldl (as : List QAction) :
    ∀ q, QInv q → QInv (as.foldl TaskQueue.step q) := by
  induction as with
  | nil => intro q h; simpa using h
  | cons a as ih => intro q h; exact ih _ (QInv_step q a h)

theorem QInv_run (as : List QAction) : QInv (TaskQueue.run as) :=
  QInv_foldl as ⟨0, [], none, []⟩
    ⟨rfl, 0, Nat.le_refl 0, rfl, rfl, rfl, fun _ hi => Option.noConfusion hi⟩

/-- Count a running slot: one task if occupied, none otherwise. -/
def optCount : Option Nat → Nat
  | none => 0
  | some _ => 1

theorem scan_take_bound (tr : List QEvent) :
    ∀ r r' : Option Nat, scanRunning r tr = some r' →
      ∀ n, (startedIds (tr.take n)).length + optCount r
        ≤ (finishedIds (tr.take n)).length + 1 := by
  induction tr with
  | nil =>
      intro r r' _ n
      cases r <;> simp [startedIds, finishedIds, optCount]
  | cons e rest ih =>
      intro r r' h n
      cases n with
      | zero => cases r <;> simp [startedIds, finishedIds, optCount]
      | succ m =>
          cases e with
          | submitted i =>
              have h' : scanRunning r rest = some r' := h
              have hb := ih r r' h' m
              simpa [startedIds, finishedIds] using hb
          | started i =>
              cases r with
              | none =>
                  have h' : scanRunning (some i) rest = some r' := h
                  have hb := ih (some i) r' h' m
                  simp [startedIds, finishedIds, optCount] at hb ⊢
                  omega
              | some j => exact absurd h (by simp [scanRunning])
          | finished i =>
              cases r with
              | none => exact absurd h (by simp [scanRunning])
              | some j =>
                  by_cases hj : j = i
                  · have h' : scanRunning none rest = some r' := by
                      simpa [scanRunning, hj] using h
                    have hb := ih none r' h' m
                    simp [startedIds, finishedIds, optCount] at hb ⊢
                    omega
                  · exact absurd h (by simp [scanRunning, hj])

/-- C3: over every stimulus sequence fed to one executor, the tasks start in
exactly their submission order (the started ids are a prefix of the submitted
ids), at every instant of the trace at most one task is executing (starts
exceed finishes by at most one in every trace prefix), and submitting a task
never preempts the running one. -/
theorem C3_fifo_no_overlap (as : List QAction) :
    (startedIds (TaskQueue.run as).trace
      = (submittedIds (TaskQueue.run as).trace).take
          (startedIds (TaskQueue.run as).trace).length) ∧
    (∀ n, (startedIds ((TaskQueue.run as).trace.take n)).length
      ≤ (finishedIds ((TaskQueue.run as).trace.take n)).length + 1) ∧
    (∀ q : TaskQueue, (TaskQueue.step q QAction.addTask).running = q.running) := by
  obtain ⟨hsub, k, hk, hstart, hpend, hscan, hlink⟩ := QInv_run as
  refine ⟨?_, ?_, fun q => rfl⟩
  · rw [hstart, hsub, List.length_range, List.take_range, Nat.min_eq_left hk]
  · intro n
    have hb := scan_take_bound (TaskQueue.run as).trace none
      (TaskQueue.run as).running hscan n
    simpa [optCount] using hb
